import Mathlib

/-!
Verification development for the neo-events calendar backend.

The definitions below are a shallow embedding of the event/versioning/permission
core of the service:

* `app/db/models.py` — the relational rows (`EventRow`, `VersionRow`, `PermRow`);
* `app/crud/crud_event.py` — the CRUD layer (`check_conflicts`, `check_permission`,
  `create_with_owner`, `create_version`, `add_permission`, `update_permission`,
  `remove_permission`, `serialize_datetimes`);
* `app/api/v1/endpoints/events.py` — the endpoint logic (`create_event`,
  `update_event`, `delete_event`, the version-diff computation of `get_version_diff`);
* `app/schemas/event.py` — the pydantic validators for event creation.

Modelling conventions:

* Machine datetimes are modelled by integer UTC instants.  A raw (pre-validation)
  datetime is a `PyDT`: a clock reading plus an optional timezone offset, `none`
  meaning a naive datetime.  `datetime.isoformat` is modelled by the injective
  `isoInstant` on UTC-normalised instants.
* JSON dictionaries (version `data`, `changed_fields`, diffs) are association
  lists `List (String × Value)`; the dictionaries built by the code always have
  distinct keys.  Python value equality is modelled by structural equality of
  `Value`.  A Python `datetime` leaf inside a dumped dict is `Value.time`; an
  already ISO-formatted datetime is `Value.str (isoInstant t)`.  Inside a dumped
  recurrence-pattern dict the `end_date` leaf carries a tag (`DumpedTime`)
  recording whether it is an ISO string or a raw datetime object, since the two
  compare unequal in Python.
* The database session is a `DB` value; each CRUD call is a pure function from
  `DB` to `DB` (plus a result), and an endpoint returns `Except Err DB`.
  Raising an `HTTPException` before any write is the `Except.error` case, which
  by construction leaves the store untouched.
-/

namespace NeoEvents

/-- A Python datetime: a clock reading and an optional fixed timezone offset.
`tz = none` models a naive datetime. -/
structure PyDT where
  clock : Int
  tz : Option Int
deriving DecidableEq, Repr

/-- `d.replace(tzinfo=timezone.utc)` applied only when the datetime is naive —
the coercion the validators in `app/schemas/event.py` perform before comparing. -/
def coerceUTC (d : PyDT) : PyDT :=
  match d.tz with
  | none => ⟨d.clock, some 0⟩
  | some o => ⟨d.clock, some o⟩

/-- The UTC instant denoted by an aware datetime (comparisons between aware
datetimes in Python compare instants). -/
def PyDT.instant (d : PyDT) : Int :=
  d.clock - d.tz.getD 0

/-- Injective stand-in for `datetime.isoformat` on a UTC-normalised instant. -/
def isoInstant (t : Int) : String :=
  "ISO:" ++ toString t

/-- `RecurrencePattern.frequency` (a `Literal` in `app/schemas/event.py`). -/
inductive Frequency where
  | daily
  | weekly
  | monthly
  | yearly
deriving DecidableEq, Repr

/-- A datetime leaf inside a dumped recurrence-pattern dict.  `asIso` is the
ISO-string form produced by `RecurrencePattern.model_dump`; `asRaw` is a raw
`datetime` object (produced when pydantic dumps the nested model without the
override).  The two forms compare unequal in Python even at the same instant. -/
inductive DumpedTime where
  | asIso (t : Int)
  | asRaw (t : Int)
deriving DecidableEq, Repr

/-- A dumped recurrence-pattern dict, as stored in JSON columns and version data. -/
structure PatValue where
  frequency : Frequency
  interval : Nat
  end_date : Option DumpedTime
  days_of_week : Option (List Nat)
  day_of_month : Option Nat
  month_of_year : Option Nat
deriving DecidableEq, Repr

/-- A JSON value as it appears in dumped event data, version `data`,
`changed_fields` and diffs. -/
inductive Value where
  | null
  | str (s : String)
  | bool (b : Bool)
  | int (n : Int)
  | time (t : Int)
  | pat (p : PatValue)
deriving DecidableEq, Repr

/-- Normalise the `end_date` leaf of a pattern dict to its ISO-string form. -/
def patToIso (p : PatValue) : PatValue :=
  { p with end_date := p.end_date.map fun d =>
      match d with
      | .asIso t => .asIso t
      | .asRaw t => .asIso t }

/-- `serialize_datetimes` (app/crud/crud_event.py lines 11-19) on a single value:
datetime leaves become their ISO strings, recursing into nested dicts. -/
def serializeValue : Value → Value
  | .time t => .str (isoInstant t)
  | .pat p => .pat (patToIso p)
  | v => v

/-- `serialize_datetimes` on a whole dict. -/
def serializeData (d : List (String × Value)) : List (String × Value) :=
  d.map fun kv => (kv.1, serializeValue kv.2)

/-- `UserRole` (app/db/models.py lines 10-25). -/
inductive UserRole where
  | owner
  | editor
  | viewer
deriving DecidableEq, Repr

/-- The `role_hierarchy` dict of `CRUDEvent.check_permission`
(app/crud/crud_event.py lines 265-269). -/
def roleHierarchy : UserRole → Nat
  | .owner => 3
  | .editor => 2
  | .viewer => 1

/-- A row of the `events` table (app/db/models.py lines 57-74).
`created_at` / `updated_at` audit columns are omitted: no modelled claim reads
them. -/
structure EventRow where
  id : Nat
  owner_id : Nat
  title : String
  description : Option String
  start_time : Int
  end_time : Int
  location : Option String
  is_recurring : Bool
  recurrence_pattern : Option PatValue
deriving DecidableEq, Repr

/-- The `changed_fields` JSON column of a version row: either the
`\x7b"all": [...]\x7d` marker written for the initial version, or a map from
field name to its old and new value. -/
inductive ChangedFields where
  | allKeys (ks : List String)
  | fieldDiffs (l : List (String × Value × Value))
deriving DecidableEq, Repr

/-- A row of the `event_versions` table (app/db/models.py lines 77-91).
`id` and `created_at` are omitted: no modelled claim reads them. -/
structure VersionRow where
  event_id : Nat
  version_number : Nat
  data : List (String × Value)
  created_by_id : Nat
  comment : Option String
  change_type : String
  changed_fields : ChangedFields
deriving DecidableEq, Repr

/-- A row of the `event_permissions` table (app/db/models.py lines 28-39). -/
structure PermRow where
  event_id : Nat
  user_id : Nat
  role : UserRole
deriving DecidableEq, Repr

/-- The relational store visible to the CRUD layer.  `nextEventId` models the
autoincrementing primary key of `events`. -/
structure DB where
  events : List EventRow
  versions : List VersionRow
  permissions : List PermRow
  nextEventId : Nat
deriving DecidableEq, Repr

def emptyDB : DB :=
  { events := [], versions := [], permissions := [], nextEventId := 1 }

/-- `CRUDBase.get` — `db.query(Event).filter(Event.id == id).first()`. -/
def getEvent (db : DB) (id : Nat) : Option EventRow :=
  db.events.find? fun e => e.id == id

/-- The three-branch `or_` filter of `check_conflicts`
(app/crud/crud_event.py lines 281-294). -/
abbrev overlapBranches (e : EventRow) (start_time end_time : Int) : Prop :=
  (e.start_time ≤ start_time ∧ e.end_time > start_time) ∨
  (e.start_time < end_time ∧ e.end_time ≥ end_time) ∨
  (e.start_time ≥ start_time ∧ e.end_time ≤ end_time)

/-- `CRUDEvent.check_conflicts` (app/crud/crud_event.py lines 273-298): all
events other than `event_id` matching the three-branch overlap filter.  Note
that the query has no owner filter. -/
def check_conflicts (db : DB) (event_id : Nat) (start_time end_time : Int) :
    List EventRow :=
  db.events.filter fun e =>
    decide (e.id ≠ event_id ∧ overlapBranches e start_time end_time)

/-- `CRUDEvent.check_permission` (app/crud/crud_event.py lines 241-271). -/
def check_permission (db : DB) (event_id user_id : Nat)
    (required_role : UserRole) : Bool :=
  match getEvent db event_id with
  | none => false
  | some event =>
    if event.owner_id = user_id then true
    else
      match db.permissions.find? fun p =>
          p.event_id == event_id && p.user_id == user_id with
      | none => false
      | some permission =>
        decide (roleHierarchy required_role ≤ roleHierarchy permission.role)

/-- Update the role of the first permission row matching `(event_id, user_id)`,
leaving the list unchanged when none matches — the in-place update performed by
`add_permission` / `update_permission` on the row returned by `.first()`. -/
def updateFirstRole : List PermRow → Nat → Nat → UserRole → List PermRow
  | [], _, _, _ => []
  | p :: ps, eid, uid, r =>
    if p.event_id = eid ∧ p.user_id = uid then { p with role := r } :: ps
    else p :: updateFirstRole ps eid uid r

/-- `CRUDEvent.add_permission` (app/crud/crud_event.py lines 162-194): update the
existing `(event, user)` grant in place if there is one, otherwise insert a new
row. -/
def add_permission (db : DB) (event_id user_id : Nat) (role : UserRole) : DB :=
  if db.permissions.any (fun p => p.event_id == event_id && p.user_id == user_id) then
    { db with permissions := updateFirstRole db.permissions event_id user_id role }
  else
    { db with permissions :=
        db.permissions ++ [{ event_id := event_id, user_id := user_id, role := role }] }

/-- `CRUDEvent.remove_permission` (app/crud/crud_event.py lines 203-219): delete
the first matching grant, if any. -/
def remove_permission (db : DB) (event_id user_id : Nat) : DB :=
  { db with permissions :=
      db.permissions.eraseP fun p => p.event_id == event_id && p.user_id == user_id }

/-- `CRUDEvent.update_permission` (app/crud/crud_event.py lines 221-239): update
the first matching grant's role in place, if any. -/
def update_permission (db : DB) (event_id user_id : Nat) (role : UserRole) : DB :=
  { db with permissions := updateFirstRole db.permissions event_id user_id role }

/-- The version rows of one event, in insertion order
(`CRUDEvent.get_versions` without the reordering). -/
def versionsOfL (l : List VersionRow) (event_id : Nat) : List VersionRow :=
  l.filter fun v => v.event_id == event_id

def versionsOf (db : DB) (event_id : Nat) : List VersionRow :=
  versionsOfL db.versions event_id

/-- The row returned by
`query.filter(event_id).order_by(version_number.desc()).first()` in
`create_version`: a row with the maximal version number, `none` when the event
has no versions. -/
def latestVer : List VersionRow → Option VersionRow
  | [] => none
  | v :: vs =>
    match latestVer vs with
    | none => some v
    | some a => if v.version_number < a.version_number then some a else some v

/-- The `essential_fields` set of `create_version`
(app/crud/crud_event.py lines 98-101). -/
def essentialFields : List String :=
  ["title", "description", "start_time", "end_time",
   "location", "is_recurring", "recurrence_pattern"]

/-- Python `dict.get(key)`: `None` when the key is absent. -/
def lookupD (d : List (String × Value)) (k : String) : Value :=
  (d.lookup k).getD Value.null

/-- The changed-fields loop of `create_version`
(app/crud/crud_event.py lines 104-111): for each essential field present in
`data`, record `(old, new)` when the field is absent from the previous data or
its value differs. -/
def changedFieldsCalc (previous_data data : List (String × Value)) :
    List (String × Value × Value) :=
  essentialFields.filterMap fun key =>
    match data.lookup key with
    | none => none
    | some v =>
      match previous_data.lookup key with
      | none => some (key, Value.null, v)
      | some pv => if pv = v then none else some (key, pv, v)

/-- The `essential_data` dict of `create_version`
(app/crud/crud_event.py lines 114-122). -/
def essentialData (data : List (String × Value)) : List (String × Value) :=
  [("title", lookupD data "title"),
   ("description", lookupD data "description"),
   ("start_time", lookupD data "start_time"),
   ("end_time", lookupD data "end_time"),
   ("location", lookupD data "location"),
   ("is_recurring", lookupD data "is_recurring"),
   ("recurrence_pattern", lookupD data "recurrence_pattern")]

/-- `CRUDEvent.create_version` (app/crud/crud_event.py lines 82-140).  Returns
the new row and the updated store. -/
def create_version (db : DB) (event_id : Nat) (data : List (String × Value))
    (user_id : Nat) (comment : Option String) : VersionRow × DB :=
  let latest := latestVer (versionsOf db event_id)
  let version_number := match latest with
    | some lv => lv.version_number + 1
    | none => 1
  let previous_data := match latest with
    | some lv => lv.data
    | none => []
  let changed := (changedFieldsCalc previous_data data).map fun kon =>
    (kon.1, serializeValue kon.2.1, serializeValue kon.2.2)
  let version : VersionRow :=
    { event_id := event_id
      version_number := version_number
      data := serializeData (essentialData data)
      created_by_id := user_id
      comment := comment
      change_type := "update"
      changed_fields := .fieldDiffs changed }
  (version, { db with versions := db.versions ++ [version] })

/-- A raw `RecurrencePattern` payload (app/schemas/event.py lines 7-13), before
validation.  `interval`, `day_of_month`, `month_of_year` are already subject to
the type-level `Field` bounds, so their truthiness in the validators coincides
with presence. -/
structure RecurrencePatternIn where
  frequency : Frequency
  interval : Nat := 1
  end_date : Option PyDT := none
  days_of_week : Option (List Nat) := none
  day_of_month : Option Nat := none
  month_of_year : Option Nat := none
deriving DecidableEq, Repr

/-- A raw event-creation payload (`EventCreate`, app/schemas/event.py).
`recurrence_pattern`'s outer `Option` records whether the field was present in
the request body at all: pydantic runs the `recurrence_pattern` field validator
only when the field was provided (`validate_default` is not set), so an omitted
pattern (`none`) and an explicit `null` (`some none`) behave differently. -/
structure EventCreateIn where
  title : String
  description : Option String := none
  start_time : PyDT
  end_time : PyDT
  location : Option String := none
  is_recurring : Bool := false
  recurrence_pattern : Option (Option RecurrencePatternIn) := none
deriving DecidableEq, Repr

/-- The pattern value after validation (omitted and explicit `null` both end up
as `None` on the model). -/
def patternOf (x : EventCreateIn) : Option RecurrencePatternIn :=
  x.recurrence_pattern.getD none

/-- A validated recurrence pattern: `end_date` has been UTC-coerced to an
instant. -/
structure RecurrencePatternV where
  frequency : Frequency
  interval : Nat
  end_date : Option Int
  days_of_week : Option (List Nat)
  day_of_month : Option Nat
  month_of_year : Option Nat
deriving DecidableEq, Repr

def coercePattern (p : RecurrencePatternIn) : RecurrencePatternV :=
  { frequency := p.frequency
    interval := p.interval
    end_date := p.end_date.map fun d => (coerceUTC d).instant
    days_of_week := p.days_of_week
    day_of_month := p.day_of_month
    month_of_year := p.month_of_year }

/-- A validated `EventCreate`: datetimes are UTC instants. -/
structure EventCreateV where
  title : String
  description : Option String
  start_time : Int
  end_time : Int
  location : Option String
  is_recurring : Bool
  recurrence_pattern : Option RecurrencePatternV
deriving DecidableEq, Repr

/-- `EventBase.validate_recurrence_pattern` (app/schemas/event.py lines 84-98).
The validator is skipped entirely when the field was omitted from the payload
(pydantic does not validate default values). -/
def validate_recurrence_pattern (is_recurring : Bool) :
    Option (Option RecurrencePatternIn) → Except String Unit
  | none => .ok ()
  | some v =>
    if is_recurring ∧ v = none then
      .error "Recurrence pattern is required when is_recurring is true"
    else if ¬ is_recurring ∧ v ≠ none then
      .error "Recurrence pattern should not be provided when is_recurring is false"
    else
      match v with
      | none => .ok ()
      | some p =>
        if p.frequency = .weekly ∧ (p.days_of_week = none ∨ p.days_of_week = some []) then
          .error "days_of_week is required for weekly recurrence"
        else if p.frequency = .monthly ∧ p.day_of_month = none then
          .error "day_of_month is required for monthly recurrence"
        else if p.frequency = .yearly ∧ p.month_of_year = none then
          .error "month_of_year is required for yearly recurrence"
        else .ok ()

/-- `EventBase` validation: the `recurrence_pattern` field validator followed by
the `validate_dates` model validator (app/schemas/event.py lines 55-75), which
UTC-coerces naive datetimes, requires `end_time > start_time`, and for a
recurring event with a pattern requires `end_date > start_time` when an
`end_date` is present. -/
def EventBase_validate (x : EventCreateIn) : Except String EventCreateV :=
  match validate_recurrence_pattern x.is_recurring x.recurrence_pattern with
  | .error m => .error m
  | .ok _ =>
    let s := coerceUTC x.start_time
    let e := coerceUTC x.end_time
    if e.instant ≤ s.instant then
      .error "end_time must be after start_time"
    else
      let pat := (patternOf x).map coercePattern
      match pat with
      | some p =>
        if x.is_recurring then
          match p.end_date with
          | some d =>
            if d ≤ s.instant then
              .error "Recurrence end_date must be after the event start_time"
            else
              .ok { title := x.title, description := x.description,
                    start_time := s.instant, end_time := e.instant,
                    location := x.location, is_recurring := x.is_recurring,
                    recurrence_pattern := pat }
          | none =>
            .ok { title := x.title, description := x.description,
                  start_time := s.instant, end_time := e.instant,
                  location := x.location, is_recurring := x.is_recurring,
                  recurrence_pattern := pat }
        else
          .ok { title := x.title, description := x.description,
                start_time := s.instant, end_time := e.instant,
                location := x.location, is_recurring := x.is_recurring,
                recurrence_pattern := pat }
      | none =>
        .ok { title := x.title, description := x.description,
              start_time := s.instant, end_time := e.instant,
              location := x.location, is_recurring := x.is_recurring,
              recurrence_pattern := pat }

/-- `EventCreate` validation: `EventBase` validation followed by
`validate_start_time_future` (app/schemas/event.py lines 112-119), where `now`
is `datetime.now(timezone.utc)`. -/
def EventCreate_validate (now : Int) (x : EventCreateIn) : Except String EventCreateV :=
  match EventBase_validate x with
  | .error m => .error m
  | .ok v =>
    if v.start_time ≤ now then .error "start_time must be in the future"
    else .ok v

def optStr : Option String → Value
  | none => .null
  | some s => .str s

/-- `RecurrencePattern.model_dump` (app/schemas/event.py lines 32-36):
`end_date` is ISO-formatted. -/
def patDumpIso (p : RecurrencePatternV) : PatValue :=
  { frequency := p.frequency
    interval := p.interval
    end_date := p.end_date.map .asIso
    days_of_week := p.days_of_week
    day_of_month := p.day_of_month
    month_of_year := p.month_of_year }

/-- `EventBase.model_dump` on a validated `EventCreate`
(app/schemas/event.py lines 100-109): exactly the seven model fields, with
`start_time` / `end_time` ISO-formatted and the pattern dumped via its own
`model_dump`. -/
def eventCreateDump (x : EventCreateV) : List (String × Value) :=
  [("title", .str x.title),
   ("description", optStr x.description),
   ("start_time", .str (isoInstant x.start_time)),
   ("end_time", .str (isoInstant x.end_time)),
   ("location", optStr x.location),
   ("is_recurring", .bool x.is_recurring),
   ("recurrence_pattern",
     match x.recurrence_pattern with
     | none => .null
     | some p => .pat (patDumpIso p))]

/-- `CRUDEvent.create_with_owner` (app/crud/crud_event.py lines 23-48): insert
the event row, then the initial version with `version_number = 1`,
`change_type = "create"` and `changed_fields = \x7b"all": keys\x7d`. -/
def create_with_owner (db : DB) (obj_in : EventCreateV) (owner_id : Nat) :
    EventRow × DB :=
  let obj_in_data := eventCreateDump obj_in
  let db_obj : EventRow :=
    { id := db.nextEventId
      owner_id := owner_id
      title := obj_in.title
      description := obj_in.description
      start_time := obj_in.start_time
      end_time := obj_in.end_time
      location := obj_in.location
      is_recurring := obj_in.is_recurring
      recurrence_pattern := obj_in.recurrence_pattern.map patDumpIso }
  let version : VersionRow :=
    { event_id := db_obj.id
      version_number := 1
      data := serializeData obj_in_data
      created_by_id := owner_id
      comment := some "Initial version"
      change_type := "create"
      changed_fields := .allKeys (obj_in_data.map Prod.fst) }
  (db_obj,
   { db with
      events := db.events ++ [db_obj]
      versions := db.versions ++ [version]
      nextEventId := db.nextEventId + 1 })

/-- The `HTTPException`s raised by the modelled endpoints. -/
inductive Err where
  | badRequest
  | conflict
  | notFound
  | forbidden
deriving DecidableEq, Repr

/-- HTTP status code of each error. -/
def statusCode : Err → Nat
  | .badRequest => 400
  | .conflict => 409
  | .notFound => 404
  | .forbidden => 403

/-- The `create_event` endpoint (app/api/v1/endpoints/events.py lines 165-198):
the body is validated by FastAPI before the handler runs; the handler checks
conflicts with `event_id = 0` and raises 409 before any write when the list is
non-empty. -/
def create_event (now : Int) (db : DB) (current_user : Nat)
    (event_in : EventCreateIn) : Except Err DB :=
  match EventCreate_validate now event_in with
  | .error _ => .error .badRequest
  | .ok v =>
    if check_conflicts db 0 v.start_time v.end_time ≠ [] then .error .conflict
    else .ok (create_with_owner db v current_user).2

/-- A validated `EventUpdate` payload (app/schemas/event.py lines 122-160).
`none` means the field was not set in the request body (pydantic
`exclude_unset`).  For the nullable columns `description`, `location` and
`recurrence_pattern` an explicit JSON `null` is modelled by `some none`;
explicit nulls for the non-nullable-typed fields are not modelled.  Datetimes
are already UTC-coerced instants, and a provided pattern is in its dumped-dict
form (pydantic dumps the nested model without the ISO override, so a provided
`end_date` is a raw datetime leaf, `DumpedTime.asRaw`). -/
structure EventUpdateM where
  title : Option String := none
  description : Option (Option String) := none
  start_time : Option Int := none
  end_time : Option Int := none
  location : Option (Option String) := none
  is_recurring : Option Bool := none
  recurrence_pattern : Option (Option PatValue) := none
deriving DecidableEq, Repr

def optPat : Option PatValue → Value
  | none => .null
  | some p => .pat p

/-- `event_in.model_dump(exclude_unset=True)` in `update_event`: only the
provided fields, in model field order. -/
def updateDump (u : EventUpdateM) : List (String × Value) :=
  (match u.title with | none => [] | some v => [("title", Value.str v)]) ++
  (match u.description with | none => [] | some d => [("description", optStr d)]) ++
  (match u.start_time with | none => [] | some t => [("start_time", Value.time t)]) ++
  (match u.end_time with | none => [] | some t => [("end_time", Value.time t)]) ++
  (match u.location with | none => [] | some l => [("location", optStr l)]) ++
  (match u.is_recurring with | none => [] | some b => [("is_recurring", Value.bool b)]) ++
  (match u.recurrence_pattern with | none => [] | some p => [("recurrence_pattern", optPat p)])

/-- `EventSchema.model_validate(event).model_dump()` in `update_event`
(app/api/v1/endpoints/events.py lines 481-482): the seven `EventBase` fields
(datetimes ISO-formatted, a stored pattern re-parsed and re-dumped, which
normalises its `end_date` to the ISO form) followed by the schema's extra
columns.  The audit keys `created_at` / `updated_at` / `permissions` /
`versions` are omitted from the model: they are not essential fields, so
`create_version` never reads them. -/
def eventDump (e : EventRow) : List (String × Value) :=
  [("title", .str e.title),
   ("description", optStr e.description),
   ("start_time", .str (isoInstant e.start_time)),
   ("end_time", .str (isoInstant e.end_time)),
   ("location", optStr e.location),
   ("is_recurring", .bool e.is_recurring),
   ("recurrence_pattern",
     match e.recurrence_pattern with
     | none => .null
     | some p => .pat (patToIso p)),
   ("id", .int e.id),
   ("owner_id", .int e.owner_id)]

/-- Python `dict.update`: existing keys keep their position and take the new
value, keys only in `upd` are appended. -/
def overlayData (base upd : List (String × Value)) : List (String × Value) :=
  (base.map fun kv =>
    match upd.lookup kv.1 with
    | some v => (kv.1, v)
    | none => kv) ++
  upd.filter fun kv => ¬ (base.map Prod.fst).contains kv.1

/-- Modelled from the spec: `app/crud/base.py` (`CRUDBase.update`) is not in the
source tree — only its caller `update_event` is.  Per the spec's description of
updates ("Only the fields provided in the request will be updated"), the ORM
update sets exactly the fields present in the request body and leaves every
other column unchanged. -/
def CRUDBase_update (e : EventRow) (u : EventUpdateM) : EventRow :=
  { e with
    title := u.title.getD e.title
    description := match u.description with | none => e.description | some d => d
    start_time := u.start_time.getD e.start_time
    end_time := u.end_time.getD e.end_time
    location := match u.location with | none => e.location | some l => l
    is_recurring := u.is_recurring.getD e.is_recurring
    recurrence_pattern :=
      match u.recurrence_pattern with | none => e.recurrence_pattern | some p => p }

/-- The `update_event` endpoint (app/api/v1/endpoints/events.py lines 325-494):
404 when the event does not exist, 403 without editor permission, 409 when a
time field is provided and the (owner-unscoped) conflict query is non-empty;
otherwise a new version is captured from the pre-update row overlaid with the
provided fields, and then the row itself is updated. -/
def update_event (db : DB) (event_id current_user : Nat) (event_in : EventUpdateM) :
    Except Err DB :=
  match getEvent db event_id with
  | none => .error .notFound
  | some event =>
    if check_permission db event_id current_user .editor then
      if (event_in.start_time.isSome ∨ event_in.end_time.isSome) ∧
          check_conflicts db event_id
            (event_in.start_time.getD event.start_time)
            (event_in.end_time.getD event.end_time) ≠ [] then
        .error .conflict
      else
        let event_data := eventDump event
        let update_data := updateDump event_in
        let merged := overlayData event_data update_data
        let db1 := (create_version db event_id merged current_user
          (some "Event updated")).2
        .ok { db1 with
                events := db1.events.map fun e =>
                  if e.id = event_id then CRUDBase_update e event_in else e }
    else .error .forbidden

/-- The `delete_event` endpoint (app/api/v1/endpoints/events.py lines 497-542):
owner-only; the ORM cascade (`cascade="all, delete-orphan"` on
`Event.permissions` and `Event.versions`, app/db/models.py lines 73-74) removes
the event's permissions and its entire version history with it. -/
def delete_event (db : DB) (event_id current_user : Nat) : Except Err DB :=
  match getEvent db event_id with
  | none => .error .notFound
  | some _ =>
    if check_permission db event_id current_user .owner then
      .ok { db with
              events := db.events.filter fun e => e.id != event_id
              versions := db.versions.filter fun v => v.event_id != event_id
              permissions := db.permissions.filter fun p => p.event_id != event_id }
    else .error .forbidden

/-- One iteration of the diff loop of `get_version_diff`
(app/api/v1/endpoints/events.py lines 1086-1093) for a single key. -/
def getVersionDiffChange (d1 d2 : List (String × Value)) (k : String) :
    Option (Option Value × Option Value) :=
  match d1.lookup k, d2.lookup k with
  | none, none => none
  | none, some v => some (none, some v)
  | some v, none => some (some v, none)
  | some a, some b => if a = b then none else some (some a, some b)

/-- The `changes` dict computed by `get_version_diff`: the loop runs over the
union of the two key sets (iteration order of a Python set is unspecified;
membership and lookup are order-independent). -/
def diffChanges (d1 d2 : List (String × Value)) :
    List (String × (Option Value × Option Value)) :=
  ((d1.map Prod.fst ++ d2.map Prod.fst).dedup).filterMap fun k =>
    (getVersionDiffChange d1 d2 k).map fun c => (k, c)

/-! Concrete sample data, used to instantiate the theorems below. -/

def exCreateIn : EventCreateIn :=
  { title := "New", start_time := ⟨10, some 0⟩, end_time := ⟨20, some 0⟩ }

def exCreateV : EventCreateV :=
  { title := "New", description := none, start_time := 10, end_time := 20,
    location := none, is_recurring := false, recurrence_pattern := none }

def exOtherEvent : EventRow :=
  { id := 1, owner_id := 2, title := "Busy", description := none,
    start_time := 12, end_time := 18, location := none,
    is_recurring := false, recurrence_pattern := none }

def exDB1 : DB :=
  { events := [exOtherEvent], versions := [], permissions := [], nextEventId := 2 }

def exDB2 : DB := (create_with_owner emptyDB exCreateV 1).2

/-! Helper lemmas about association-list lookup. -/

theorem lookup_isSome_iff_mem_keys (d : List (String × Value)) (k : String) :
    (d.lookup k).isSome ↔ k ∈ d.map Prod.fst := by
  induction d with
  | nil => simp [List.lookup]
  | cons a l ih =>
    by_cases h : k = a.1
    · subst h
      simp [List.lookup]
    · have hb : (k == a.1) = false := beq_eq_false_iff_ne.mpr h
      simp [List.lookup, hb, ih, h]

theorem lookup_eq_none_of_not_mem_keys (d : List (String × Value)) (k : String)
    (h : k ∉ d.map Prod.fst) : d.lookup k = none := by
  rcases hl : d.lookup k with _ | v
  · rfl
  · exact absurd ((lookup_isSome_iff_mem_keys d k).mp (by simp [hl])) h

theorem lookup_filterMap_keyed (f : String → Option (Option Value × Option Value))
    (l : List String) (hnd : l.Nodup) (k : String) :
    (l.filterMap fun a => (f a).map fun c => (a, c)).lookup k =
      if k ∈ l then f k else none := by
  induction l with
  | nil => simp
  | cons a l ih =>
    rw [List.nodup_cons] at hnd
    by_cases hk : k = a
    · subst hk
      cases hf : f k with
      | none => simp [List.filterMap_cons, hf, ih hnd.2, hnd.1]
      | some c => simp [List.filterMap_cons, hf, List.lookup]
    · cases hf : f a with
      | none => simp [List.filterMap_cons, hf, ih hnd.2, List.mem_cons, hk]
      | some c =>
        have hb : (k == a) = false := beq_eq_false_iff_ne.mpr hk
        simp [List.filterMap_cons, hf, List.lookup, hb, ih hnd.2, List.mem_cons, hk]

theorem lookup_diffChanges (d1 d2 : List (String × Value)) (k : String) :
    (diffChanges d1 d2).lookup k =
      if k ∈ (d1.map Prod.fst ++ d2.map Prod.fst).dedup
      then getVersionDiffChange d1 d2 k else none := by
  unfold diffChanges
  exact lookup_filterMap_keyed _ _ (List.nodup_dedup _) k

/-! Claim block C2 — the three-branch conflict filter is the interval-overlap predicate -/

/-- C2: for a well-formed queried range (`start_time < end_time`) and a
well-formed event time range, an event is returned by `check_conflicts` exactly
when it is stored, is not the excluded `event_id`, and its range overlaps the
queried range in the reference sense (`e.start_time < end_time ∧
e.end_time > start_time`); the three-branch disjunction in the query is
equivalent to this overlap predicate. -/
theorem check_conflicts_mem_iff_overlap (db : DB) (event_id : Nat) (s t : Int)
    (e : EventRow) (hq : s < t) (he : e.start_time < e.end_time) :
    e ∈ check_conflicts db event_id s t ↔
      e ∈ db.events ∧ e.id ≠ event_id ∧ e.start_time < t ∧ e.end_time > s := by
  unfold check_conflicts
  rw [List.mem_filter]
  simp only [decide_eq_true_eq]
  constructor
  · rintro ⟨hm, hid, hov⟩
    exact ⟨hm, hid, by omega, by omega⟩
  · rintro ⟨hm, hid, h1, h2⟩
    exact ⟨hm, hid, by omega⟩

/-- Witness for C2 at a concrete store, query range and event. -/
theorem check_conflicts_mem_iff_overlap_witness :
    exOtherEvent ∈ check_conflicts exDB1 0 10 20 ↔
      exOtherEvent ∈ exDB1.events ∧ exOtherEvent.id ≠ 0 ∧
        exOtherEvent.start_time < 20 ∧ exOtherEvent.end_time > 10 :=
  check_conflicts_mem_iff_overlap exDB1 0 10 20 exOtherEvent (by decide) (by decide)

/-! Claim block C5 — the version diff is a shallow field-level map over the key union -/

/-- C5: in the `changes` dict of `get_version_diff`, a key absent from `v1`'s
data appears as `(None, v2 value)` (and is absent when absent from both); a key
absent from `v2`'s data appears as `(v1 value, None)`; a key present in both
appears as `(old, new)` exactly when the stored values differ; and the diff of
a version's data with itself is empty. -/
theorem diff_changes_spec :
    (∀ (d1 d2 : List (String × Value)) (k : String),
      (d1.lookup k = none →
        (diffChanges d1 d2).lookup k = (d2.lookup k).map fun v => (none, some v)) ∧
      (d2.lookup k = none →
        (diffChanges d1 d2).lookup k = (d1.lookup k).map fun v => (some v, none)) ∧
      (∀ a b, d1.lookup k = some a → d2.lookup k = some b →
        (diffChanges d1 d2).lookup k =
          if a = b then none else some (some a, some b))) ∧
    (∀ d : List (String × Value), diffChanges d d = []) := by
  constructor
  · intro d1 d2 k
    have hmem : k ∈ (d1.map Prod.fst ++ d2.map Prod.fst).dedup ↔
        k ∈ d1.map Prod.fst ∨ k ∈ d2.map Prod.fst := by
      rw [List.mem_dedup, List.mem_append]
    refine ⟨?_, ?_, ?_⟩
    · intro h1
      rw [lookup_diffChanges]
      rcases h2 : d2.lookup k with _ | v
      · rw [if_neg]
        · simp
        · rw [hmem]
          rintro (hk | hk)
          · exact absurd ((lookup_isSome_iff_mem_keys d1 k).mpr hk) (by simp [h1])
          · exact absurd ((lookup_isSome_iff_mem_keys d2 k).mpr hk) (by simp [h2])
      · rw [if_pos]
        · unfold getVersionDiffChange
          rw [h1, h2]
          simp
        · rw [hmem]
          exact Or.inr ((lookup_isSome_iff_mem_keys d2 k).mp (by simp [h2]))
    · intro h2
      rw [lookup_diffChanges]
      rcases h1 : d1.lookup k with _ | v
      · rw [if_neg]
        · simp
        · rw [hmem]
          rintro (hk | hk)
          · exact absurd ((lookup_isSome_iff_mem_keys d1 k).mpr hk) (by simp [h1])
          · exact absurd ((lookup_isSome_iff_mem_keys d2 k).mpr hk) (by simp [h2])
      · rw [if_pos]
        · unfold getVersionDiffChange
          rw [h1, h2]
          simp
        · rw [hmem]
          exact Or.inl ((lookup_isSome_iff_mem_keys d1 k).mp (by simp [h1]))
    · intro a b h1 h2
      rw [lookup_diffChanges, if_pos]
      · unfold getVersionDiffChange
        rw [h1, h2]
      · rw [hmem]
        exact Or.inl ((lookup_isSome_iff_mem_keys d1 k).mp (by simp [h1]))
  · intro d
    unfold diffChanges
    rw [List.filterMap_eq_nil_iff]
    intro k _
    unfold getVersionDiffChange
    rcases h : d.lookup k with _ | v
    · simp
    · simp

/-- Witness for C5 at concrete version data: a changed key, an equal key, and a
key present on only one side. -/
theorem diff_changes_spec_witness :
    ((diffChanges [("title", Value.str "a"), ("location", Value.null)]
        [("title", Value.str "b")]).lookup "title" =
      if Value.str "a" = Value.str "b" then none
      else some (some (Value.str "a"), some (Value.str "b"))) ∧
    ((diffChanges [("title", Value.str "a"), ("location", Value.null)]
        [("title", Value.str "b")]).lookup "location" =
      (List.lookup "location" [("title", Value.str "a"), ("location", Value.null)]).map
        fun v => (some v, none)) :=
  ⟨(diff_changes_spec.1 [("title", Value.str "a"), ("location", Value.null)]
      [("title", Value.str "b")] "title").2.2 (Value.str "a") (Value.str "b") rfl rfl,
   (diff_changes_spec.1 [("title", Value.str "a"), ("location", Value.null)]
      [("title", Value.str "b")] "location").2.1 rfl⟩

/-! Claim block C4 — three-tier permission resolution -/

theorem eq_of_mem_of_pairwise_ne_id {l : List EventRow}
    (h : l.Pairwise fun a b => a.id ≠ b.id) {a b : EventRow}
    (ha : a ∈ l) (hb : b ∈ l) (hab : a.id = b.id) : a = b := by
  induction l with
  | nil => cases ha
  | cons x xs ih =>
    rw [List.pairwise_cons] at h
    rcases List.mem_cons.mp ha with rfl | ha'
    · rcases List.mem_cons.mp hb with rfl | hb'
      · rfl
      · exact absurd hab (h.1 b hb')
    · rcases List.mem_cons.mp hb with rfl | hb'
      · exact absurd hab.symm (h.1 a ha')
      · exact ih h.2 ha' hb'

theorem eq_of_mem_of_pairwise_grant {l : List PermRow}
    (h : l.Pairwise fun a b => ¬(a.event_id = b.event_id ∧ a.user_id = b.user_id))
    {a b : PermRow} (ha : a ∈ l) (hb : b ∈ l)
    (hab : a.event_id = b.event_id ∧ a.user_id = b.user_id) : a = b := by
  induction l with
  | nil => cases ha
  | cons x xs ih =>
    rw [List.pairwise_cons] at h
    rcases List.mem_cons.mp ha with rfl | ha'
    · rcases List.mem_cons.mp hb with rfl | hb'
      · rfl
      · exact absurd hab (h.1 b hb')
    · rcases List.mem_cons.mp hb with rfl | hb'
      · exact absurd ⟨hab.1.symm, hab.2.symm⟩ (h.1 a ha')
      · exact ih h.2 ha' hb'

/-- C4: under unique event ids and at most one grant per `(event, user)` pair,
`check_permission` returns `true` exactly when the event exists and either the
user owns it (granting every required role) or the user holds a grant whose
rank in the owner=3 / editor=2 / viewer=1 hierarchy is at least the required
role's rank; in particular it returns `false` when the event does not exist or
the non-owner user holds no grant. -/
theorem check_permission_iff (db : DB) (eid uid : Nat) (req : UserRole)
    (hids : db.events.Pairwise fun a b => a.id ≠ b.id)
    (hgrants : db.permissions.Pairwise fun a b =>
      ¬(a.event_id = b.event_id ∧ a.user_id = b.user_id)) :
    check_permission db eid uid req = true ↔
      ∃ e ∈ db.events, e.id = eid ∧
        (e.owner_id = uid ∨
          ∃ p ∈ db.permissions, p.event_id = eid ∧ p.user_id = uid ∧
            roleHierarchy req ≤ roleHierarchy p.role) := by
  unfold check_permission getEvent
  cases hfind : db.events.find? (fun e => e.id == eid) with
  | none =>
    constructor
    · intro h
      simp at h
    · rintro ⟨e, he, hid, _⟩
      have := List.find?_eq_none.mp hfind e he
      simp [hid] at this
  | some ev =>
    have hev_mem : ev ∈ db.events := List.mem_of_find?_eq_some hfind
    have hev_id : ev.id = eid := by
      have := List.find?_some hfind
      simpa using this
    dsimp only
    by_cases how : ev.owner_id = uid
    · rw [if_pos how]
      constructor
      · intro _
        exact ⟨ev, hev_mem, hev_id, Or.inl how⟩
      · intro _
        rfl
    · rw [if_neg how]
      cases hp : db.permissions.find?
          (fun p => p.event_id == eid && p.user_id == uid) with
      | none =>
        constructor
        · intro h
          simp at h
        · rintro ⟨e, he, hid, hcase⟩
          have heq : e = ev :=
            eq_of_mem_of_pairwise_ne_id hids he hev_mem (hid.trans hev_id.symm)
          rcases hcase with hcaseo | ⟨p, hpm, hpe, hpu, _⟩
          · exact absurd (heq ▸ hcaseo) how
          · have := List.find?_eq_none.mp hp p hpm
            simp [hpe, hpu] at this
      | some perm =>
        dsimp only
        have hpm : perm ∈ db.permissions := List.mem_of_find?_eq_some hp
        have hpp := List.find?_some hp
        have hpe : perm.event_id = eid := by
          simp at hpp
          exact hpp.1
        have hpu : perm.user_id = uid := by
          simp at hpp
          exact hpp.2
        simp only [decide_eq_true_eq]
        constructor
        · intro h
          exact ⟨ev, hev_mem, hev_id, Or.inr ⟨perm, hpm, hpe, hpu, h⟩⟩
        · rintro ⟨e, he, hid, hcaseo | ⟨p, hpm2, hpe2, hpu2, hrank⟩⟩
          · have heq : e = ev :=
              eq_of_mem_of_pairwise_ne_id hids he hev_mem (hid.trans hev_id.symm)
            exact absurd (heq ▸ hcaseo) how
          · have heqp : p = perm :=
              eq_of_mem_of_pairwise_grant hgrants hpm2 hpm
                ⟨hpe2.trans hpe.symm, hpu2.trans hpu.symm⟩
            exact heqp ▸ hrank

def exOwnedEvent : EventRow :=
  { id := 1, owner_id := 1, title := "Mine", description := none,
    start_time := 30, end_time := 40, location := none,
    is_recurring := false, recurrence_pattern := none }

def exDB3 : DB :=
  { events := [exOwnedEvent],
    versions := [],
    permissions := [{ event_id := 1, user_id := 2, role := .editor }],
    nextEventId := 2 }

/-- Witness for C4 at a concrete store: user 2 holds an editor grant on event 1
and asks for viewer access. -/
theorem check_permission_iff_witness :
    check_permission exDB3 1 2 .viewer = true ↔
      ∃ e ∈ exDB3.events, e.id = 1 ∧
        (e.owner_id = 2 ∨
          ∃ p ∈ exDB3.permissions, p.event_id = 1 ∧ p.user_id = 2 ∧
            roleHierarchy .viewer ≤ roleHierarchy p.role) :=
  check_permission_iff exDB3 1 2 .viewer (by decide) (by decide)

/-! Claim block C8 — at most one grant per (event, user) -/

/-- No two permission rows share the same `(event_id, user_id)` pair — the
invariant corresponding to Python's one-row-per-grant usage. -/
abbrev AtMostOneGrant (l : List PermRow) : Prop :=
  l.Pairwise fun a b => ¬(a.event_id = b.event_id ∧ a.user_id = b.user_id)

theorem mem_updateFirstRole {l : List PermRow} {eid uid : Nat} {r : UserRole}
    {q : PermRow} (hq : q ∈ updateFirstRole l eid uid r) :
    ∃ q0 ∈ l, q.event_id = q0.event_id ∧ q.user_id = q0.user_id := by
  induction l with
  | nil => cases hq
  | cons p ps ih =>
    simp only [updateFirstRole] at hq
    by_cases h : p.event_id = eid ∧ p.user_id = uid
    · rw [if_pos h] at hq
      rcases List.mem_cons.mp hq with rfl | hq'
      · exact ⟨p, List.mem_cons_self p ps, rfl, rfl⟩
      · exact ⟨q, List.mem_cons_of_mem p hq', rfl, rfl⟩
    · rw [if_neg h] at hq
      rcases List.mem_cons.mp hq with rfl | hq'
      · exact ⟨q, List.mem_cons_self q ps, rfl, rfl⟩
      · obtain ⟨q0, hq0, he, hu⟩ := ih hq'
        exact ⟨q0, List.mem_cons_of_mem p hq0, he, hu⟩

theorem pairwise_updateFirstRole {l : List PermRow} (eid uid : Nat) (r : UserRole)
    (h : AtMostOneGrant l) : AtMostOneGrant (updateFirstRole l eid uid r) := by
  induction l with
  | nil => exact List.Pairwise.nil
  | cons p ps ih =>
    have h' := (List.pairwise_cons.mp h)
    simp only [updateFirstRole]
    by_cases hm : p.event_id = eid ∧ p.user_id = uid
    · rw [if_pos hm]
      exact List.pairwise_cons.mpr ⟨fun b hb => h'.1 b hb, h'.2⟩
    · rw [if_neg hm]
      refine List.pairwise_cons.mpr ⟨?_, ih h'.2⟩
      intro q hq
      obtain ⟨q0, hq0, he, hu⟩ := mem_updateFirstRole hq
      intro hc
      exact h'.1 q0 hq0 ⟨he ▸ hc.1, hu ▸ hc.2⟩

theorem exists_first_match (l : List PermRow) (eid uid : Nat)
    (h : ∃ p ∈ l, p.event_id = eid ∧ p.user_id = uid) :
    ∃ l1 p l2, l = l1 ++ p :: l2 ∧ p.event_id = eid ∧ p.user_id = uid ∧
      ∀ q ∈ l1, ¬(q.event_id = eid ∧ q.user_id = uid) := by
  induction l with
  | nil =>
    obtain ⟨p, hp, _⟩ := h
    cases hp
  | cons a as ih =>
    by_cases ha : a.event_id = eid ∧ a.user_id = uid
    · exact ⟨[], a, as, rfl, ha.1, ha.2, by simp⟩
    · obtain ⟨p, hp, hpp⟩ := h
      rcases List.mem_cons.mp hp with rfl | hp'
      · exact absurd hpp ha
      · obtain ⟨l1, p', l2, hsplit, he, hu, hl1⟩ := ih ⟨p, hp', hpp⟩
        refine ⟨a :: l1, p', l2, by rw [hsplit]; rfl, he, hu, ?_⟩
        intro q hq
        rcases List.mem_cons.mp hq with rfl | hq'
        · exact ha
        · exact hl1 q hq'

theorem updateFirstRole_append (l1 : List PermRow) (p : PermRow) (l2 : List PermRow)
    (eid uid : Nat) (r : UserRole)
    (hl1 : ∀ q ∈ l1, ¬(q.event_id = eid ∧ q.user_id = uid))
    (hp : p.event_id = eid ∧ p.user_id = uid) :
    updateFirstRole (l1 ++ p :: l2) eid uid r = l1 ++ { p with role := r } :: l2 := by
  induction l1 with
  | nil =>
    rw [List.nil_append, List.nil_append]
    simp only [updateFirstRole]
    rw [if_pos hp]
  | cons a as ih =>
    have ha := hl1 a (List.mem_cons_self a as)
    rw [List.cons_append, List.cons_append]
    simp only [updateFirstRole]
    rw [if_neg ha]
    rw [ih fun q hq => hl1 q (List.mem_cons_of_mem a hq)]

/-- C8: `add_permission` updates an existing `(event, user)` grant in place —
the store is split as `l1 ++ p :: l2` around the first matching row, and only
that row's role changes — and the at-most-one-grant-per-(event, user) invariant
is preserved by `add_permission`, `update_permission` and `remove_permission`. -/
theorem permission_grant_uniqueness :
    (∀ (db : DB) (eid uid : Nat) (r : UserRole),
      (∃ p ∈ db.permissions, p.event_id = eid ∧ p.user_id = uid) →
      ∃ l1 p l2,
        db.permissions = l1 ++ p :: l2 ∧ p.event_id = eid ∧ p.user_id = uid ∧
        (∀ q ∈ l1, ¬(q.event_id = eid ∧ q.user_id = uid)) ∧
        (add_permission db eid uid r).permissions = l1 ++ { p with role := r } :: l2) ∧
    (∀ (db : DB) (eid uid : Nat) (r : UserRole),
      AtMostOneGrant db.permissions →
      AtMostOneGrant (add_permission db eid uid r).permissions) ∧
    (∀ (db : DB) (eid uid : Nat) (r : UserRole),
      AtMostOneGrant db.permissions →
      AtMostOneGrant (update_permission db eid uid r).permissions) ∧
    (∀ (db : DB) (eid uid : Nat),
      AtMostOneGrant db.permissions →
      AtMostOneGrant (remove_permission db eid uid).permissions) := by
  refine ⟨?_, ?_, ?_, ?_⟩
  · intro db eid uid r h
    obtain ⟨l1, p, l2, hsplit, hpe, hpu, hl1⟩ := exists_first_match db.permissions eid uid h
    have hany : db.permissions.any
        (fun p => p.event_id == eid && p.user_id == uid) = true := by
      refine List.any_eq_true.mpr ⟨p, ?_, by simp [hpe, hpu]⟩
      rw [hsplit]
      exact List.mem_append_right l1 (List.mem_cons_self p l2)
    refine ⟨l1, p, l2, hsplit, hpe, hpu, hl1, ?_⟩
    unfold add_permission
    rw [if_pos hany]
    rw [hsplit]
    exact updateFirstRole_append l1 p l2 eid uid r hl1 ⟨hpe, hpu⟩
  · intro db eid uid r h
    unfold add_permission
    by_cases hany : db.permissions.any
        (fun p => p.event_id == eid && p.user_id == uid) = true
    · rw [if_pos hany]
      exact pairwise_updateFirstRole eid uid r h
    · rw [if_neg hany]
      show AtMostOneGrant (db.permissions ++ [{ event_id := eid, user_id := uid, role := r }])
      refine List.pairwise_append.mpr ⟨h, List.pairwise_singleton _ _, ?_⟩
      intro a ha b hb
      rcases List.mem_singleton.mp hb with rfl
      intro hc
      exact hany (List.any_eq_true.mpr ⟨a, ha, by simp [hc.1, hc.2]⟩)
  · intro db eid uid r h
    exact pairwise_updateFirstRole eid uid r h
  · intro db eid uid h
    exact h.sublist (List.eraseP_sublist db.permissions)

/-- Witness for C8: re-sharing event 1 with user 2 as viewer updates the single
existing editor grant in place, and the invariant holds on the concrete store. -/
theorem permission_grant_uniqueness_witness :
    (∃ l1 p l2,
      exDB3.permissions = l1 ++ p :: l2 ∧ p.event_id = 1 ∧ p.user_id = 2 ∧
      (∀ q ∈ l1, ¬(q.event_id = 1 ∧ q.user_id = 2)) ∧
      (add_permission exDB3 1 2 .viewer).permissions =
        l1 ++ { p with role := UserRole.viewer } :: l2) ∧
    AtMostOneGrant (add_permission exDB3 1 2 .viewer).permissions :=
  ⟨permission_grant_uniqueness.1 exDB3 1 2 .viewer (by decide),
   permission_grant_uniqueness.2.1 exDB3 1 2 .viewer (by decide)⟩

/-! Claim block C1 — conflict detection is not scoped to the acting user -/

theorem check_conflicts_ne_nil_iff (db : DB) (eidq : Nat) (s t : Int) :
    check_conflicts db eidq s t ≠ [] ↔
      ∃ e ∈ db.events, e.id ≠ eidq ∧ overlapBranches e s t := by
  unfold check_conflicts
  rw [Ne, List.filter_eq_nil_iff]
  push_neg
  simp only [decide_eq_true_eq]

/-- C1 counterexample: the claim «a creation is rejected for a time-range
overlap only when the overlapping event is owned by the acting user» is false —
user 1's creation is rejected with the 409 conflict error although the only
stored event belongs to user 2 (`check_conflicts` has no owner filter). -/
theorem conflict_not_scoped_to_owner :
    ¬ (∀ (now : Int) (db : DB) (uid : Nat) (x : EventCreateIn),
        create_event now db uid x = .error .conflict →
        ∃ e ∈ db.events, e.owner_id = uid) := by
  intro h
  obtain ⟨e, hmem, hown⟩ := h 0 exDB1 1 exCreateIn (by rfl)
  have he : e = exOtherEvent := by
    simpa [exDB1] using hmem
  rw [he] at hown
  exact absurd hown (by decide)

/-- C1 amended: conflict rejection is owner-agnostic.  A creation is rejected
with 409 exactly when some stored event (of any owner, `id ≠ 0`) matches the
three-branch overlap filter against the validated time range; an update —
once the 404 and 403 gates pass and a time field is provided — is rejected
with 409 exactly when some other stored event (of any owner) matches the
filter against the requested range. -/
theorem conflict_rejection_any_owner :
    (∀ (now : Int) (db : DB) (uid : Nat) (x : EventCreateIn) (v : EventCreateV),
      EventCreate_validate now x = .ok v →
      (create_event now db uid x = .error .conflict ↔
        ∃ e ∈ db.events, e.id ≠ 0 ∧ overlapBranches e v.start_time v.end_time)) ∧
    (∀ (db : DB) (eid uid : Nat) (u : EventUpdateM) (ev : EventRow),
      getEvent db eid = some ev →
      check_permission db eid uid .editor = true →
      u.start_time.isSome ∨ u.end_time.isSome →
      (update_event db eid uid u = .error .conflict ↔
        ∃ e ∈ db.events, e.id ≠ eid ∧
          overlapBranches e (u.start_time.getD ev.start_time)
            (u.end_time.getD ev.end_time))) := by
  constructor
  · intro now db uid x v hval
    unfold create_event
    rw [hval]
    dsimp only
    by_cases hc : check_conflicts db 0 v.start_time v.end_time ≠ []
    · rw [if_pos hc]
      simp only [true_iff, iff_true]
      exact (check_conflicts_ne_nil_iff db 0 v.start_time v.end_time).mp hc
    · rw [if_neg hc]
      constructor
      · intro habs
        cases habs
      · intro hex
        exact absurd ((check_conflicts_ne_nil_iff db 0 v.start_time v.end_time).mpr hex) hc
  · intro db eid uid u ev hget hperm htime
    unfold update_event
    rw [hget]
    dsimp only
    rw [if_pos hperm]
    by_cases hc : check_conflicts db eid (u.start_time.getD ev.start_time)
        (u.end_time.getD ev.end_time) ≠ []
    · rw [if_pos ⟨htime, hc⟩]
      simp only [true_iff, iff_true]
      exact (check_conflicts_ne_nil_iff db eid _ _).mp hc
    · rw [if_neg fun hcond => hc hcond.2]
      constructor
      · intro habs
        cases habs
      · intro hex
        exact absurd ((check_conflicts_ne_nil_iff db eid _ _).mpr hex) hc

/-- Witness for amended C1: in the concrete store, user 1's rejected creation
corresponds exactly to the overlapping event of user 2. -/
theorem conflict_rejection_any_owner_witness :
    create_event 0 exDB1 1 exCreateIn = .error .conflict ↔
      ∃ e ∈ exDB1.events, e.id ≠ 0 ∧ overlapBranches e exCreateV.start_time
        exCreateV.end_time :=
  conflict_rejection_any_owner.1 0 exDB1 1 exCreateIn exCreateV (by rfl)

/-! Claim block C7 — create_event is atomic w.r.t. the conflict check -/

/-- C7: when the body validates and the conflict query for the requested range
is non-empty, `create_event` fails with the 409 conflict error and writes
nothing; when the query is empty, exactly one event row and exactly one
version row — its version number 1, its `change_type` `"create"` — are
appended. -/
theorem create_event_atomic (now : Int) (db : DB) (uid : Nat) (x : EventCreateIn)
    (v : EventCreateV) (hval : EventCreate_validate now x = .ok v) :
    (check_conflicts db 0 v.start_time v.end_time ≠ [] →
      create_event now db uid x = .error .conflict) ∧
    (check_conflicts db 0 v.start_time v.end_time = [] →
      ∃ r vr,
        create_event now db uid x =
          .ok { db with
                  events := db.events ++ [r]
                  versions := db.versions ++ [vr]
                  nextEventId := db.nextEventId + 1 } ∧
        vr.version_number = 1 ∧ vr.event_id = r.id ∧ vr.change_type = "create" ∧
        vr.created_by_id = uid ∧ r.id = db.nextEventId ∧ r.owner_id = uid) := by
  constructor
  · intro hc
    unfold create_event
    rw [hval]
    dsimp only
    rw [if_pos hc]
  · intro hc
    unfold create_event
    rw [hval]
    dsimp only
    rw [if_neg fun hne => hne hc]
    exact ⟨_, _, rfl, rfl, rfl, rfl, rfl, rfl, rfl⟩

/-- Witness for C7: creating in an empty store appends exactly one event and
its version-1 snapshot. -/
theorem create_event_atomic_witness :
    ∃ r vr,
      create_event 0 emptyDB 1 exCreateIn =
        .ok { emptyDB with
                events := emptyDB.events ++ [r]
                versions := emptyDB.versions ++ [vr]
                nextEventId := emptyDB.nextEventId + 1 } ∧
      vr.version_number = 1 ∧ vr.event_id = r.id ∧ vr.change_type = "create" ∧
      vr.created_by_id = 1 ∧ r.id = emptyDB.nextEventId ∧ r.owner_id = 1 :=
  (create_event_atomic 0 emptyDB 1 exCreateIn exCreateV (by rfl)).2 (by rfl)

/-! Claim block C9 — event-creation input validation -/

/-- The error conditions of the `recurrence_pattern` field validator, as a flat
disjunction.  `b` is the (already coerced) `is_recurring` flag, `o` the raw
pattern field. -/
def FieldViolation (b : Bool) (o : Option (Option RecurrencePatternIn)) : Prop :=
  (b = true ∧ o = some none) ∨
  (b = false ∧ ∃ p, o = some (some p)) ∨
  (∃ p, o = some (some p) ∧ p.frequency = .weekly ∧
    (p.days_of_week = none ∨ p.days_of_week = some [])) ∨
  (∃ p, o = some (some p) ∧ p.frequency = .monthly ∧ p.day_of_month = none) ∨
  (∃ p, o = some (some p) ∧ p.frequency = .yearly ∧ p.month_of_year = none)

/-- The full error condition of `EventBase` validation: a field-stage violation,
a non-positive duration, or a recurring pattern whose `end_date` is not after
the (UTC-coerced) start. -/
def BaseViolation (x : EventCreateIn) : Prop :=
  FieldViolation x.is_recurring x.recurrence_pattern ∨
  (coerceUTC x.end_time).instant ≤ (coerceUTC x.start_time).instant ∨
  (x.is_recurring = true ∧ ∃ p d, x.recurrence_pattern = some (some p) ∧
    p.end_date = some d ∧ (coerceUTC d).instant ≤ (coerceUTC x.start_time).instant)

/-- The full error condition of `EventCreate` validation. -/
def CodeViolation (now : Int) (x : EventCreateIn) : Prop :=
  BaseViolation x ∨ (coerceUTC x.start_time).instant ≤ now

theorem vrp_error_iff (b : Bool) (o : Option (Option RecurrencePatternIn)) :
    (∃ m, validate_recurrence_pattern b o = .error m) ↔ FieldViolation b o := by
  cases o with
  | none => simp [validate_recurrence_pattern, FieldViolation]
  | some v =>
    cases v with
    | none =>
      cases b <;> simp [validate_recurrence_pattern, FieldViolation]
    | some p =>
      cases b with
      | false => simp [validate_recurrence_pattern, FieldViolation]
      | true =>
        simp only [validate_recurrence_pattern, FieldViolation]
        split_ifs <;> simp_all

theorem eventBase_result (x : EventCreateIn) :
    (∃ m, EventBase_validate x = .error m) ∨
    EventBase_validate x = .ok
      { title := x.title, description := x.description,
        start_time := (coerceUTC x.start_time).instant,
        end_time := (coerceUTC x.end_time).instant,
        location := x.location, is_recurring := x.is_recurring,
        recurrence_pattern := (patternOf x).map coercePattern } := by
  unfold EventBase_validate
  cases validate_recurrence_pattern x.is_recurring x.recurrence_pattern with
  | error m => exact Or.inl ⟨m, rfl⟩
  | ok u =>
    dsimp only
    repeat' first
      | split_ifs
      | split
    all_goals first
      | exact Or.inl ⟨_, rfl⟩
      | exact Or.inr rfl

theorem eventBase_ok_start (x : EventCreateIn) (v : EventCreateV)
    (hb : EventBase_validate x = .ok v) :
    v.start_time = (coerceUTC x.start_time).instant := by
  rcases eventBase_result x with ⟨m, hm⟩ | hok
  · rw [hm] at hb
    cases hb
  · rw [hok] at hb
    cases hb
    rfl

theorem eventBase_error_iff (x : EventCreateIn) :
    (∃ m, EventBase_validate x = .error m) ↔ BaseViolation x := by
  cases hv : validate_recurrence_pattern x.is_recurring x.recurrence_pattern with
  | error m =>
    have hf : FieldViolation x.is_recurring x.recurrence_pattern :=
      (vrp_error_iff _ _).mp ⟨m, hv⟩
    refine iff_of_true ⟨m, ?_⟩ (Or.inl hf)
    simp [EventBase_validate, hv]
  | ok u =>
    have hnf : ¬ FieldViolation x.is_recurring x.recurrence_pattern := by
      intro hf
      obtain ⟨m, hm⟩ := (vrp_error_iff _ _).mpr hf
      rw [hv] at hm
      cases hm
    simp only [EventBase_validate, hv]
    rcases hrp : x.recurrence_pattern with _ | mp
    · cases hir : x.is_recurring <;>
        simp_all [BaseViolation, patternOf, hrp, hir] <;> split_ifs <;> simp_all
    · rcases mp with _ | p
      · cases hir : x.is_recurring <;>
          simp_all [BaseViolation, patternOf, hrp, hir] <;> split_ifs <;> simp_all
      · cases hir : x.is_recurring with
        | false =>
          simp_all [BaseViolation, patternOf, coercePattern] <;>
            split_ifs <;> simp_all
        | true =>
          cases hed : p.end_date with
          | none =>
            simp_all [BaseViolation, patternOf, coercePattern, hed] <;>
              split_ifs <;> simp_all
          | some d =>
            simp_all [BaseViolation, patternOf, coercePattern, hed] <;>
              split_ifs <;> simp_all

def exBadEndDate : EventCreateIn :=
  { title := "R", start_time := ⟨10, some 0⟩, end_time := ⟨20, some 0⟩,
    is_recurring := true,
    recurrence_pattern := some (some { frequency := .daily, end_date := some ⟨5, some 0⟩ }) }

/-- The claim's list of preconditions as a decidable predicate: end after
start, start in the future, a pattern exactly when `is_recurring`, and the
weekly/monthly/yearly completeness fields. -/
def C9Claimed (now : Int) (x : EventCreateIn) : Bool :=
  decide ((coerceUTC x.end_time).instant ≤ (coerceUTC x.start_time).instant) ||
  decide ((coerceUTC x.start_time).instant ≤ now) ||
  (x.is_recurring && (patternOf x).isNone) ||
  (!x.is_recurring && (patternOf x).isSome) ||
  (match patternOf x with
   | none => false
   | some p =>
     (decide (p.frequency = .weekly) && p.days_of_week.isNone) ||
     (decide (p.frequency = .monthly) && p.day_of_month.isNone) ||
     (decide (p.frequency = .yearly) && p.month_of_year.isNone))

/-- C9 counterexample: the claim's «raises an error if and only if one of these
preconditions is violated» is false — a recurring event whose pattern carries
an `end_date` at or before `start_time` satisfies every listed precondition yet
is rejected («Recurrence end_date must be after the event start_time»). -/
theorem validation_iff_claim_false :
    ¬ (∀ (now : Int) (x : EventCreateIn),
        (∃ m, EventCreate_validate now x = .error m) ↔ C9Claimed now x = true) := by
  intro h
  have hc := (h 0 exBadEndDate).mp
    ⟨"Recurrence end_date must be after the event start_time", by rfl⟩
  exact absurd hc (by decide)

/-- C9 amended: `EventCreate` validation raises an error if and only if, after
interpreting naive datetimes as UTC: `end_time ≤ start_time`, or `start_time`
is not strictly in the future, or the pattern field is explicitly present and
violates the field checks (explicit `null` with `is_recurring`, a pattern
without `is_recurring`, a weekly pattern without a nonempty `days_of_week`, a
monthly pattern without `day_of_month`, a yearly pattern without
`month_of_year` — an omitted pattern field is never checked), or a recurring
pattern carries an `end_date` not strictly after `start_time`. -/
theorem validate_error_iff (now : Int) (x : EventCreateIn) :
    (∃ m, EventCreate_validate now x = .error m) ↔ CodeViolation now x := by
  cases hb : EventBase_validate x with
  | error m =>
    have hBase : BaseViolation x := (eventBase_error_iff x).mp ⟨m, hb⟩
    refine iff_of_true ⟨m, ?_⟩ (Or.inl hBase)
    simp [EventCreate_validate, hb]
  | ok v =>
    have hnoBase : ¬ BaseViolation x := by
      intro hf
      obtain ⟨m, hm⟩ := (eventBase_error_iff x).mpr hf
      rw [hb] at hm
      cases hm
    have hstart : v.start_time = (coerceUTC x.start_time).instant :=
      eventBase_ok_start x v hb
    simp only [EventCreate_validate, hb]
    by_cases hn : v.start_time ≤ now
    · rw [if_pos hn]
      exact iff_of_true ⟨_, rfl⟩ (Or.inr (hstart ▸ hn))
    · rw [if_neg hn]
      constructor
      · rintro ⟨m, hm⟩
        cases hm
      · rintro (hf | h8)
        · exact absurd hf hnoBase
        · exact absurd (hstart ▸ h8) hn

/-! Claim block C6 — version snapshots and their changed fields -/

theorem latestVer_cons_ne_none (w : VersionRow) (ws : List VersionRow) :
    latestVer (w :: ws) ≠ none := by
  cases hl : latestVer ws with
  | none => simp [latestVer, hl]
  | some a =>
    simp only [latestVer, hl]
    split_ifs <;> simp

theorem latestVer_mem {l : List VersionRow} {r : VersionRow}
    (h : latestVer l = some r) : r ∈ l := by
  induction l with
  | nil => cases h
  | cons w ws ih =>
    cases hl : latestVer ws with
    | none =>
      simp only [latestVer, hl] at h
      cases h
      exact List.mem_cons_self _ _
    | some a =>
      simp only [latestVer, hl] at h
      split_ifs at h with hcmp
      · cases h
        exact List.mem_cons_of_mem _ (ih hl)
      · cases h
        exact List.mem_cons_self _ _

theorem latestVer_ge {l : List VersionRow} {r : VersionRow}
    (h : latestVer l = some r) :
    ∀ v ∈ l, v.version_number ≤ r.version_number := by
  induction l generalizing r with
  | nil => cases h
  | cons w ws ih =>
    intro u hu
    cases hl : latestVer ws with
    | none =>
      simp only [latestVer, hl] at h
      cases h
      rcases List.mem_cons.mp hu with rfl | hu'
      · exact le_refl _
      · cases ws with
        | nil => cases hu'
        | cons a as => exact absurd hl (latestVer_cons_ne_none a as)
    | some a =>
      simp only [latestVer, hl] at h
      rcases List.mem_cons.mp hu with rfl | hu'
      · split_ifs at h with hcmp
        · cases h
          omega
        · cases h
          exact le_refl _
      · have hwa := ih hl u hu'
        split_ifs at h with hcmp
        · cases h
          exact hwa
        · cases h
          omega

theorem latestVer_eq_of_max {l : List VersionRow} {prev : VersionRow}
    (hmem : prev ∈ l)
    (hmax : ∀ v ∈ l, v = prev ∨ v.version_number < prev.version_number) :
    latestVer l = some prev := by
  cases hl : latestVer l with
  | none =>
    cases l with
    | nil => cases hmem
    | cons w ws => exact absurd hl (latestVer_cons_ne_none w ws)
  | some r =>
    have hrm := latestVer_mem hl
    have hge := latestVer_ge hl prev hmem
    rcases hmax r hrm with rfl | hlt
    · rfl
    · exact absurd hge (by omega)

theorem lookup_serializeData (d : List (String × Value)) (k : String) :
    (serializeData d).lookup k = (d.lookup k).map serializeValue := by
  induction d with
  | nil => simp [serializeData]
  | cons a l ih =>
    by_cases h : k = a.1
    · subst h
      simp [serializeData, List.lookup]
    · have hb : (k == a.1) = false := beq_eq_false_iff_ne.mpr h
      simp only [serializeData, List.map_cons, List.lookup, hb]
      exact ih

theorem lookup_essentialData (data : List (String × Value)) (k : String) :
    (essentialData data).lookup k =
      if k ∈ essentialFields then some (lookupD data k) else none := by
  by_cases h1 : k = "title"
  · subst h1; simp [essentialData, essentialFields, List.lookup]
  · by_cases h2 : k = "description"
    · subst h2; simp [essentialData, essentialFields, List.lookup]
    · by_cases h3 : k = "start_time"
      · subst h3; simp [essentialData, essentialFields, List.lookup]
      · by_cases h4 : k = "end_time"
        · subst h4; simp [essentialData, essentialFields, List.lookup]
        · by_cases h5 : k = "location"
          · subst h5; simp [essentialData, essentialFields, List.lookup]
          · by_cases h6 : k = "is_recurring"
            · subst h6; simp [essentialData, essentialFields, List.lookup]
            · by_cases h7 : k = "recurrence_pattern"
              · subst h7; simp [essentialData, essentialFields, List.lookup]
              · have b1 : (k == "title") = false := beq_eq_false_iff_ne.mpr h1
                have b2 : (k == "description") = false := beq_eq_false_iff_ne.mpr h2
                have b3 : (k == "start_time") = false := beq_eq_false_iff_ne.mpr h3
                have b4 : (k == "end_time") = false := beq_eq_false_iff_ne.mpr h4
                have b5 : (k == "location") = false := beq_eq_false_iff_ne.mpr h5
                have b6 : (k == "is_recurring") = false := beq_eq_false_iff_ne.mpr h6
                have b7 : (k == "recurrence_pattern") = false := beq_eq_false_iff_ne.mpr h7
                simp [essentialData, essentialFields, List.lookup,
                  b1, b2, b3, b4, b5, b6, b7, h1, h2, h3, h4, h5, h6, h7]

theorem mem_changedFieldsCalc (prev data : List (String × Value)) (k : String)
    (o n : Value) :
    (k, o, n) ∈ changedFieldsCalc prev data ↔
      k ∈ essentialFields ∧ ∃ v, data.lookup k = some v ∧
        prev.lookup k ≠ some v ∧
        o = (prev.lookup k).getD Value.null ∧ n = v := by
  unfold changedFieldsCalc
  rw [List.mem_filterMap]
  constructor
  · rintro ⟨a, ha, hfa⟩
    cases hd : data.lookup a with
    | none =>
      rw [hd] at hfa
      simp at hfa
    | some v =>
      rw [hd] at hfa
      dsimp only at hfa
      cases hp : prev.lookup a with
      | none =>
        rw [hp] at hfa
        dsimp only at hfa
        simp only [Option.some.injEq, Prod.mk.injEq] at hfa
        obtain ⟨rfl, rfl, rfl⟩ := hfa
        exact ⟨ha, _, hd, by simp [hp], by simp [hp], rfl⟩
      | some pv =>
        rw [hp] at hfa
        dsimp only at hfa
        split_ifs at hfa with heq
        simp only [Option.some.injEq, Prod.mk.injEq] at hfa
        obtain ⟨rfl, rfl, rfl⟩ := hfa
        exact ⟨ha, _, hd, by simp [hp, heq], by simp [hp], rfl⟩
  · rintro ⟨hk, v, hd, hne, ho, hn⟩
    refine ⟨k, hk, ?_⟩
    rw [hd]
    dsimp only
    cases hp : prev.lookup k with
    | none =>
      dsimp only
      rw [hp] at ho
      subst hn
      simp [ho]
    | some pv =>
      dsimp only
      rw [hp] at hne ho
      rw [if_neg fun he => hne (by rw [he])]
      subst hn
      simp [ho]

/-- C6 counterexample: the claim quantifies over every `EventVersion`, but the
initial version written by `create_with_owner` stores
`changed_fields = \x7b"all": [all seven field names]\x7d` — a marker, not a map from
essential fields to their old and new values. -/
theorem initial_version_changed_fields_shape :
    ∃ vr, (create_with_owner emptyDB exCreateV 1).2.versions = [vr] ∧
      vr.version_number = 1 ∧
      vr.changed_fields = ChangedFields.allKeys
        ["title", "description", "start_time", "end_time", "location",
         "is_recurring", "recurrence_pattern"] ∧
      ∀ l, vr.changed_fields ≠ ChangedFields.fieldDiffs l := by
  refine ⟨_, rfl, rfl, rfl, ?_⟩
  intro l h
  cases h

/-- C6 amended: every version written by `create_version` (the updates, i.e.
`version_number ≥ 2` in a well-formed history) stores exactly the seven
essential fields — key `k` maps to the serialized `data.get(k)` — and its
`changed_fields` is a map containing exactly the essential fields present in
`data` whose value differs from the value stored in the immediately prior
(maximal-numbered) version, each with its old (serialized prior, `None` when
absent) and new (serialized) value.  The initial version written by
`create_with_owner` instead stores `changed_fields = \x7b"all": [field names]\x7d`. -/
theorem create_version_essentials (db : DB) (eid : Nat)
    (data : List (String × Value)) (uid : Nat) (c : Option String)
    (prev : VersionRow) (hmem : prev ∈ db.versions) (heid : prev.event_id = eid)
    (hmax : ∀ v ∈ db.versions, v.event_id = eid →
      v = prev ∨ v.version_number < prev.version_number) :
    ((create_version db eid data uid c).1.data.map Prod.fst = essentialFields) ∧
    (∀ k, (create_version db eid data uid c).1.data.lookup k =
      if k ∈ essentialFields then some (serializeValue (lookupD data k)) else none) ∧
    ((create_version db eid data uid c).1.version_number =
      prev.version_number + 1) ∧
    ∃ l, (create_version db eid data uid c).1.changed_fields = .fieldDiffs l ∧
      ∀ k o n, (k, o, n) ∈ l ↔
        k ∈ essentialFields ∧ ∃ v, data.lookup k = some v ∧
          prev.data.lookup k ≠ some v ∧
          o = serializeValue ((prev.data.lookup k).getD Value.null) ∧
          n = serializeValue v := by
  have hlatest : latestVer (versionsOf db eid) = some prev := by
    apply latestVer_eq_of_max
    · exact List.mem_filter.mpr ⟨hmem, by simp [heid]⟩
    · intro v hv
      have hv' := List.mem_filter.mp hv
      exact hmax v hv'.1 (by simpa using hv'.2)
  refine ⟨?_, ?_, ?_, ?_⟩
  · rfl
  · intro k
    show (serializeData (essentialData data)).lookup k = _
    rw [lookup_serializeData, lookup_essentialData]
    split_ifs <;> simp
  · show (match latestVer (versionsOf db eid) with
      | some lv => lv.version_number + 1
      | none => 1) = prev.version_number + 1
    rw [hlatest]
  · refine ⟨(changedFieldsCalc prev.data data).map (fun kon =>
        (kon.1, serializeValue kon.2.1, serializeValue kon.2.2)), ?_, ?_⟩
    · show ChangedFields.fieldDiffs
        ((changedFieldsCalc
          (match latestVer (versionsOf db eid) with
            | some lv => lv.data
            | none => []) data).map fun kon =>
          (kon.1, serializeValue kon.2.1, serializeValue kon.2.2)) = _
      rw [hlatest]
    · intro k o n
      rw [List.mem_map]
      constructor
      · rintro ⟨⟨k0, o0, n0⟩, hm0, heq0⟩
        simp only [Prod.mk.injEq] at heq0
        obtain ⟨rfl, rfl, rfl⟩ := heq0
        obtain ⟨hk, v, hd, hne, ho, hn⟩ :=
          (mem_changedFieldsCalc prev.data data k0 o0 n0).mp hm0
        subst hn
        exact ⟨hk, _, hd, hne, by rw [ho], rfl⟩
      · rintro ⟨hk, v, hd, hne, ho, hn⟩
        refine ⟨(k, (prev.data.lookup k).getD Value.null, v), ?_, ?_⟩
        · exact (mem_changedFieldsCalc prev.data data k _ v).mpr
            ⟨hk, v, hd, hne, rfl, rfl⟩
        · simp [ho, hn]

/-- The initial version row of `exDB2`, spelled out. -/
def exV1 : VersionRow :=
  { event_id := 1
    version_number := 1
    data := [("title", .str "New"), ("description", .null),
             ("start_time", .str (isoInstant 10)), ("end_time", .str (isoInstant 20)),
             ("location", .null), ("is_recurring", .bool false),
             ("recurrence_pattern", .null)]
    created_by_id := 1
    comment := some "Initial version"
    change_type := "create"
    changed_fields := .allKeys
      ["title", "description", "start_time", "end_time", "location",
       "is_recurring", "recurrence_pattern"] }

/-- Witness for amended C6 at a concrete store with one prior version. -/
theorem create_version_essentials_witness :
    ((create_version exDB2 1 (eventDump exOwnedEvent) 1
        (some "Event updated")).1.data.map Prod.fst = essentialFields) ∧
    ((create_version exDB2 1 (eventDump exOwnedEvent) 1
        (some "Event updated")).1.version_number = exV1.version_number + 1) :=
  ⟨(create_version_essentials exDB2 1 (eventDump exOwnedEvent) 1
      (some "Event updated") exV1 (by decide) rfl (by decide)).1,
   (create_version_essentials exDB2 1 (eventDump exOwnedEvent) 1
      (some "Event updated") exV1 (by decide) rfl (by decide)).2.2.1⟩

/-! Claim block C10 — partial update: frame and captured version -/

/-- C10: a successful `update_event` changes exactly the addressed row, by
applying exactly the provided fields to it; all other rows, the permission
table and the id counter are untouched; and exactly one version row is
appended, computed from the pre-update row's dump overlaid with the provided
fields (hence captured before the row is modified) and projected to the
essential fields in serialized form. -/
theorem update_event_frame (db : DB) (eid uid : Nat) (u : EventUpdateM) (db' : DB)
    (h : update_event db eid uid u = .ok db') :
    ∃ ev, getEvent db eid = some ev ∧
      db'.events = db.events.map
        (fun e => if e.id = eid then CRUDBase_update e u else e) ∧
      db'.permissions = db.permissions ∧
      db'.nextEventId = db.nextEventId ∧
      (∃ vr, db'.versions = db.versions ++ [vr] ∧
        vr.event_id = eid ∧ vr.created_by_id = uid ∧
        vr.data = serializeData (essentialData
          (overlayData (eventDump ev) (updateDump u)))) ∧
      (∀ e : EventRow,
        (u.title = none → (CRUDBase_update e u).title = e.title) ∧
        (∀ w, u.title = some w → (CRUDBase_update e u).title = w) ∧
        (u.description = none → (CRUDBase_update e u).description = e.description) ∧
        (∀ w, u.description = some w → (CRUDBase_update e u).description = w) ∧
        (u.start_time = none → (CRUDBase_update e u).start_time = e.start_time) ∧
        (∀ w, u.start_time = some w → (CRUDBase_update e u).start_time = w) ∧
        (u.end_time = none → (CRUDBase_update e u).end_time = e.end_time) ∧
        (∀ w, u.end_time = some w → (CRUDBase_update e u).end_time = w) ∧
        (u.location = none → (CRUDBase_update e u).location = e.location) ∧
        (∀ w, u.location = some w → (CRUDBase_update e u).location = w) ∧
        (u.is_recurring = none → (CRUDBase_update e u).is_recurring = e.is_recurring) ∧
        (∀ w, u.is_recurring = some w → (CRUDBase_update e u).is_recurring = w) ∧
        (u.recurrence_pattern = none →
          (CRUDBase_update e u).recurrence_pattern = e.recurrence_pattern) ∧
        (∀ w, u.recurrence_pattern = some w →
          (CRUDBase_update e u).recurrence_pattern = w) ∧
        (CRUDBase_update e u).id = e.id ∧
        (CRUDBase_update e u).owner_id = e.owner_id) := by
  unfold update_event at h
  cases hget : getEvent db eid with
  | none =>
    rw [hget] at h
    cases h
  | some ev =>
    rw [hget] at h
    dsimp only at h
    split_ifs at h with hperm hconf <;> cases h
    refine ⟨ev, rfl, ?_, ?_, ?_, ?_, ?_⟩
    · rfl
    · rfl
    · rfl
    · exact ⟨_, rfl, rfl, rfl, rfl⟩
    intro e
    refine ⟨?_, ?_, ?_, ?_, ?_, ?_, ?_, ?_, ?_, ?_, ?_, ?_, ?_, ?_, rfl, rfl⟩ <;>
      first
        | (intro hu; simp [CRUDBase_update, hu])
        | (intro w hu; simp [CRUDBase_update, hu])

def exUpd : EventUpdateM := { title := some "Upd" }

def exDB4 : DB :=
  match update_event exDB2 1 1 exUpd with
  | .ok d => d
  | .error _ => emptyDB

/-- Witness for C10: a concrete title-only update of the event in `exDB2`. -/
theorem update_event_frame_witness :
    ∃ ev, getEvent exDB2 1 = some ev ∧
      exDB4.events = exDB2.events.map
        (fun e => if e.id = 1 then CRUDBase_update e exUpd else e) ∧
      exDB4.permissions = exDB2.permissions ∧
      exDB4.nextEventId = exDB2.nextEventId ∧
      (∃ vr, exDB4.versions = exDB2.versions ++ [vr] ∧
        vr.event_id = 1 ∧ vr.created_by_id = 1 ∧
        vr.data = serializeData (essentialData
          (overlayData (eventDump ev) (updateDump exUpd)))) ∧
      (∀ e : EventRow,
        (exUpd.title = none → (CRUDBase_update e exUpd).title = e.title) ∧
        (∀ w, exUpd.title = some w → (CRUDBase_update e exUpd).title = w) ∧
        (exUpd.description = none → (CRUDBase_update e exUpd).description = e.description) ∧
        (∀ w, exUpd.description = some w → (CRUDBase_update e exUpd).description = w) ∧
        (exUpd.start_time = none → (CRUDBase_update e exUpd).start_time = e.start_time) ∧
        (∀ w, exUpd.start_time = some w → (CRUDBase_update e exUpd).start_time = w) ∧
        (exUpd.end_time = none → (CRUDBase_update e exUpd).end_time = e.end_time) ∧
        (∀ w, exUpd.end_time = some w → (CRUDBase_update e exUpd).end_time = w) ∧
        (exUpd.location = none → (CRUDBase_update e exUpd).location = e.location) ∧
        (∀ w, exUpd.location = some w → (CRUDBase_update e exUpd).location = w) ∧
        (exUpd.is_recurring = none → (CRUDBase_update e exUpd).is_recurring = e.is_recurring) ∧
        (∀ w, exUpd.is_recurring = some w → (CRUDBase_update e exUpd).is_recurring = w) ∧
        (exUpd.recurrence_pattern = none →
          (CRUDBase_update e exUpd).recurrence_pattern = e.recurrence_pattern) ∧
        (∀ w, exUpd.recurrence_pattern = some w →
          (CRUDBase_update e exUpd).recurrence_pattern = w) ∧
        (CRUDBase_update e exUpd).id = e.id ∧
        (CRUDBase_update e exUpd).owner_id = e.owner_id) :=
  update_event_frame exDB2 1 1 exUpd exDB4 (by rfl)

/-! Claim block C3 — linear, append-only version numbering -/

def numbersOfL (l : List VersionRow) (eid : Nat) : List Nat :=
  (versionsOfL l eid).map VersionRow.version_number

/-- Per-event version numbers form the consecutive sequence `1, 2, …, n`. -/
abbrev NumberingOK (l : List VersionRow) : Prop :=
  ∀ v ∈ l, numbersOfL l v.event_id =
    List.range' 1 (numbersOfL l v.event_id).length

/-- Store well-formedness: event ids and version event ids are below the id
counter, and every event's version numbers are consecutive from 1. -/
abbrev DBWF (db : DB) : Prop :=
  (∀ e ∈ db.events, e.id < db.nextEventId) ∧
  (∀ v ∈ db.versions, v.event_id < db.nextEventId) ∧
  NumberingOK db.versions

theorem versionsOfL_append (l : List VersionRow) (r : VersionRow) (eid : Nat) :
    versionsOfL (l ++ [r]) eid =
      versionsOfL l eid ++ (if r.event_id = eid then [r] else []) := by
  unfold versionsOfL
  rw [List.filter_append]
  congr 1
  by_cases h : r.event_id = eid
  · simp [h]
  · simp [h]

theorem numbersOfL_append (l : List VersionRow) (r : VersionRow) (eid : Nat) :
    numbersOfL (l ++ [r]) eid =
      numbersOfL l eid ++ (if r.event_id = eid then [r.version_number] else []) := by
  unfold numbersOfL
  rw [versionsOfL_append, List.map_append]
  congr 1
  by_cases h : r.event_id = eid <;> simp [h]

theorem versionsOfL_filter_ne (l : List VersionRow) (eid eid' : Nat)
    (hne : eid' ≠ eid) :
    versionsOfL (l.filter fun v => v.event_id != eid) eid' = versionsOfL l eid' := by
  unfold versionsOfL
  rw [List.filter_filter]
  apply List.filter_congr
  intro a _
  by_cases h : a.event_id = eid'
  · simp [h, hne]
  · simp [h]

/-- The range fact for one event's numbers, extracted from `NumberingOK` (it is
trivial when the event has no versions). -/
theorem numbersOfL_range (l : List VersionRow) (eid : Nat) (h : NumberingOK l) :
    numbersOfL l eid = List.range' 1 (numbersOfL l eid).length := by
  cases hw : versionsOfL l eid with
  | nil => simp [numbersOfL, hw]
  | cons w ws =>
    have hm := hw ▸ List.mem_cons_self w ws
    have hwm : w ∈ l := (List.mem_filter.mp hm).1
    have hwe : w.event_id = eid := by
      have := (List.mem_filter.mp hm).2
      simpa using this
    have := h w hwm
    rwa [hwe] at this

/-- A maximal-numbered row of a consecutively numbered non-empty list carries
the number `length`. -/
theorem latestVer_of_range (vl : List VersionRow)
    (hrange : vl.map VersionRow.version_number = List.range' 1 vl.length) :
    (vl = [] ∧ latestVer vl = none) ∨
    (∃ r, latestVer vl = some r ∧ r.version_number = vl.length) := by
  cases vl with
  | nil => exact Or.inl ⟨rfl, rfl⟩
  | cons v vs =>
    right
    cases hl : latestVer (v :: vs) with
    | none => exact absurd hl (latestVer_cons_ne_none v vs)
    | some r =>
      refine ⟨r, rfl, ?_⟩
      have hmem := latestVer_mem hl
      have hge := latestVer_ge hl
      have h1 : r.version_number ∈ List.range' 1 (v :: vs).length := by
        rw [← hrange]
        exact List.mem_map_of_mem _ hmem
      have h2 : (v :: vs).length ∈ List.range' 1 (v :: vs).length := by
        rw [List.mem_range'_1]
        simp
      rw [← hrange] at h2
      rcases List.mem_map.mp h2 with ⟨w, hwm, hwn⟩
      have hwr := hge w hwm
      have h1' := List.mem_range'_1.mp h1
      omega

/-- `create_version` assigns `length + 1` under consecutive numbering. -/
theorem create_version_number (db : DB) (eid : Nat) (d : List (String × Value))
    (uid : Nat) (c : Option String) (h : NumberingOK db.versions) :
    (create_version db eid d uid c).1.version_number =
      (versionsOfL db.versions eid).length + 1 := by
  have hrange : (versionsOfL db.versions eid).map VersionRow.version_number =
      List.range' 1 (versionsOfL db.versions eid).length := by
    have := numbersOfL_range db.versions eid h
    unfold numbersOfL at this
    rwa [List.length_map] at this
  show (match latestVer (versionsOf db eid) with
    | some lv => lv.version_number + 1
    | none => 1) = _
  rcases latestVer_of_range _ hrange with ⟨hnil, hlat⟩ | ⟨r, hlat, hrn⟩
  · unfold versionsOf
    rw [hlat, hnil]
    rfl
  · unfold versionsOf
    rw [hlat]
    dsimp only
    rw [hrn]

theorem foldr_max_range' (n : Nat) : ∀ s : Nat, 1 ≤ s →
    (List.range' s n).foldr max 0 = if n = 0 then 0 else s + n - 1 := by
  induction n with
  | zero => intro s _; simp
  | succ n ih =>
    intro s hs
    rw [List.range'_succ, List.foldr_cons, ih (s + 1) (by omega)]
    by_cases h : n = 0
    · subst h
      rw [if_pos rfl, if_neg (by omega)]
      rw [Nat.max_def]
      split_ifs <;> omega
    · rw [if_neg h, if_neg (by omega)]
      rw [Nat.max_def]
      split_ifs <;> omega

/-- Appending a row numbered `length + 1` for its event preserves consecutive
numbering. -/
theorem numberingOK_append (l : List VersionRow) (r : VersionRow)
    (h : NumberingOK l)
    (hr : r.version_number = (versionsOfL l r.event_id).length + 1) :
    NumberingOK (l ++ [r]) := by
  intro v hv
  by_cases he : v.event_id = r.event_id
  · rw [he, numbersOfL_append, if_pos rfl]
    have hbase := numbersOfL_range l r.event_id h
    have hlen : (versionsOfL l r.event_id).length =
        (numbersOfL l r.event_id).length := by
      unfold numbersOfL
      rw [List.length_map]
    rw [hr, hlen]
    rw [hbase]
    rw [List.length_append, List.length_range', List.length_singleton,
      List.range'_1_concat]
    simp [Nat.add_comm]
  · rw [numbersOfL_append, if_neg fun hh => he hh.symm, List.append_nil]
    have hvl : v ∈ l := by
      rcases List.mem_append.mp hv with hvl | hvr
      · exact hvl
      · rcases List.mem_singleton.mp hvr with rfl
        exact absurd rfl he
    exact h v hvl

theorem wf_create_with_owner (db : DB) (x : EventCreateV) (uid : Nat)
    (h : DBWF db) : DBWF (create_with_owner db x uid).2 := by
  obtain ⟨he, hv, hn⟩ := h
  refine ⟨?_, ?_, ?_⟩
  · intro e hem
    rcases List.mem_append.mp hem with h0 | h0
    · have := he e h0
      show e.id < db.nextEventId + 1
      omega
    · rcases List.mem_singleton.mp h0 with rfl
      show db.nextEventId < db.nextEventId + 1
      omega
  · intro v hvm
    rcases List.mem_append.mp hvm with h0 | h0
    · have := hv v h0
      show v.event_id < db.nextEventId + 1
      omega
    · rcases List.mem_singleton.mp h0 with rfl
      show db.nextEventId < db.nextEventId + 1
      omega
  · apply numberingOK_append db.versions _ hn
    have hempty : versionsOfL db.versions db.nextEventId = [] := by
      unfold versionsOfL
      rw [List.filter_eq_nil_iff]
      intro v hvm
      have := hv v hvm
      simp only [beq_iff_eq]
      omega
    show 1 = (versionsOfL db.versions db.nextEventId).length + 1
    rw [hempty]
    rfl

theorem wf_update_event (db : DB) (eid uid : Nat) (u : EventUpdateM) (db' : DB)
    (h : update_event db eid uid u = .ok db') (hwf : DBWF db) :
    DBWF db' ∧ ∃ vr, db'.versions = db.versions ++ [vr] := by
  obtain ⟨he, hv, hn⟩ := hwf
  unfold update_event at h
  cases hget : getEvent db eid with
  | none =>
    rw [hget] at h
    cases h
  | some ev =>
    have hevm : ev ∈ db.events := List.mem_of_find?_eq_some hget
    have hevid : ev.id = eid := by
      have := List.find?_some hget
      simpa using this
    rw [hget] at h
    dsimp only at h
    split_ifs at h with hperm hconf <;> cases h
    refine ⟨⟨?_, ?_, ?_⟩, ⟨_, rfl⟩⟩
    · intro e hem
      rcases List.mem_map.mp hem with ⟨e0, he0, rfl⟩
      have h1 := he e0 he0
      show (if e0.id = eid then CRUDBase_update e0 u else e0).id < db.nextEventId
      by_cases h0 : e0.id = eid
      · rw [if_pos h0]
        exact h1
      · rw [if_neg h0]
        exact h1
    · intro w hwm
      rcases List.mem_append.mp hwm with h0 | h0
      · exact hv w h0
      · rcases List.mem_singleton.mp h0 with rfl
        show eid < db.nextEventId
        rw [← hevid]
        exact he ev hevm
    · apply numberingOK_append db.versions _ hn
      exact create_version_number db eid _ uid (some "Event updated") hn

theorem wf_delete_event (db : DB) (eid uid : Nat) (db' : DB)
    (h : delete_event db eid uid = .ok db') (hwf : DBWF db) :
    DBWF db' ∧ db'.versions = db.versions.filter (fun v => v.event_id != eid) := by
  obtain ⟨he, hv, hn⟩ := hwf
  unfold delete_event at h
  cases hget : getEvent db eid with
  | none =>
    rw [hget] at h
    cases h
  | some ev =>
    rw [hget] at h
    dsimp only at h
    split_ifs at h with hperm <;> cases h
    refine ⟨⟨?_, ?_, ?_⟩, rfl⟩
    · intro e hem
      exact he e (List.mem_of_mem_filter hem)
    · intro w hwm
      exact hv w (List.mem_of_mem_filter hwm)
    · intro w hwm
      have hw1 : w ∈ db.versions := List.mem_of_mem_filter hwm
      have hw2 : w.event_id ≠ eid := by
        have := (List.mem_filter.mp hwm).2
        simpa using this
      show numbersOfL (db.versions.filter fun v => v.event_id != eid) w.event_id =
        List.range' 1 (numbersOfL (db.versions.filter fun v => v.event_id != eid)
          w.event_id).length
      unfold numbersOfL
      rw [versionsOfL_filter_ne db.versions eid w.event_id hw2]
      exact hn w hw1

/-- C3 counterexample: deleting an event deletes its version records through
the ORM cascade, so «no operation modifies or deletes an existing version
record» is false as stated — the version-1 record of the event in `exDB2`
exists before `delete_event` and is gone afterwards. -/
theorem delete_event_removes_version_records :
    delete_event exDB2 1 1 =
      .ok { exDB2 with events := [], versions := [], permissions := [] } ∧
    exV1 ∈ exDB2.versions ∧
    exV1 ∉ ({ exDB2 with events := [], versions := [], permissions := [] } : DB).versions := by
  refine ⟨by rfl, by decide, by decide⟩

/-- C3 amended: version numbering is linear and consecutive, and the history is
append-only except for event deletion.  `create_with_owner` appends exactly one
version numbered 1; `create_version` appends exactly one version numbered
`max + 1` (1 on an empty history); `create_event` and `update_event` preserve
store well-formedness — per-event numbers stay exactly `1, 2, …, n` — and only
append to the version table; permission operations never touch it; and
`delete_event` (the one removing operation) removes exactly the deleted
event's versions, preserving well-formedness for the remaining events. -/
theorem version_history_linear :
    (∀ (db : DB) (x : EventCreateV) (uid : Nat),
      ∃ vr, (create_with_owner db x uid).2.versions = db.versions ++ [vr] ∧
        vr.version_number = 1 ∧ vr.event_id = (create_with_owner db x uid).1.id) ∧
    (∀ (db : DB) (eid : Nat) (d : List (String × Value)) (uid : Nat)
        (c : Option String),
      (create_version db eid d uid c).2.versions =
        db.versions ++ [(create_version db eid d uid c).1] ∧
      (NumberingOK db.versions →
        (create_version db eid d uid c).1.version_number =
          (numbersOfL db.versions eid).foldr max 0 + 1)) ∧
    (∀ (now : Int) (db : DB) (uid : Nat) (x : EventCreateIn) (db' : DB),
      create_event now db uid x = .ok db' → DBWF db →
      DBWF db' ∧ ∃ vr, db'.versions = db.versions ++ [vr]) ∧
    (∀ (db : DB) (eid uid : Nat) (u : EventUpdateM) (db' : DB),
      update_event db eid uid u = .ok db' → DBWF db →
      DBWF db' ∧ ∃ vr, db'.versions = db.versions ++ [vr]) ∧
    (∀ (db : DB) (eid uid : Nat) (db' : DB),
      delete_event db eid uid = .ok db' → DBWF db →
      DBWF db' ∧ db'.versions = db.versions.filter fun v => v.event_id != eid) ∧
    (∀ (db : DB) (eid uid : Nat) (r : UserRole),
      (add_permission db eid uid r).versions = db.versions ∧
      (update_permission db eid uid r).versions = db.versions ∧
      (remove_permission db eid uid).versions = db.versions) := by
  refine ⟨?_, ?_, ?_, ?_, ?_, ?_⟩
  · intro db x uid
    exact ⟨_, rfl, rfl, rfl⟩
  · intro db eid d uid c
    refine ⟨rfl, ?_⟩
    intro hn
    rw [create_version_number db eid d uid c hn]
    have h2 := numbersOfL_range db.versions eid hn
    have h3 : (numbersOfL db.versions eid).foldr max 0 =
        (numbersOfL db.versions eid).length := by
      conv_lhs => rw [h2]
      rw [foldr_max_range' (numbersOfL db.versions eid).length 1 (le_refl 1)]
      split_ifs <;> omega
    have h4 : (versionsOfL db.versions eid).length =
        (numbersOfL db.versions eid).length := by
      unfold numbersOfL
      rw [List.length_map]
    omega
  · intro now db uid x db' h hwf
    unfold create_event at h
    cases hval : EventCreate_validate now x with
    | error m =>
      rw [hval] at h
      cases h
    | ok v =>
      rw [hval] at h
      dsimp only at h
      split_ifs at h with hc <;> cases h
      exact ⟨wf_create_with_owner db v uid hwf, _, rfl⟩
  · intro db eid uid u db' h hwf
    exact wf_update_event db eid uid u db' h hwf
  · intro db eid uid db' h hwf
    exact wf_delete_event db eid uid db' h hwf
  · intro db eid uid r
    refine ⟨?_, rfl, rfl⟩
    unfold add_permission
    split_ifs <;> rfl

/-- Witness for amended C3: creating a first event in an empty store yields a
well-formed store with exactly one appended version. -/
theorem version_history_linear_witness :
    DBWF exDB2 ∧ ∃ vr, exDB2.versions = emptyDB.versions ++ [vr] :=
  version_history_linear.2.2.1 0 emptyDB 1 exCreateIn exDB2 (by rfl) (by decide)

end NeoEvents
